import Mathlib

/-!
Verification of the pdf-chatbot worker (src/app/worker.ts).

The worker orchestrates two flows:
- ingest: parse a PDF, build one document per non-empty page, split the
  documents into chunks with a RecursiveCharacterTextSplitter (chunkSize 500,
  chunkOverlap 50), log the chunk list, and insert the chunks into the
  vector store;
- query: take the last message as the question, the rest as history,
  build a retrieval chain (with a rephrasing LLM step iff the history is
  non-empty), stream the model answer, forwarding each non-empty fragment
  as a chunk event, and finish with complete events.

Strings are modelled as lists of characters (JS strings); external services
(LLM, retriever, PDF parser, model stream) are oracles supplied as
parameters; the observable behaviour of the worker is a list of actions
(postMessage events, vector-store insertions, LLM and retriever calls).
-/

set_option maxRecDepth 10000

/-- Strings of the JS runtime are modelled as lists of characters. -/
abbrev Str := List Char

/-- Coercion from Lean string literals into the character-list model. -/
def str (s : String) : Str := s.data

/-! ### RecursiveCharacterTextSplitter

The source constructs a RecursiveCharacterTextSplitter with chunkSize 500 and
chunkOverlap 50 (src/app/worker.ts lines 119-122).  The splitter itself is the
langchain library class imported on line 18; the following definitions
transcribe that library implementation (TextSplitter.mergeSplits and
RecursiveCharacterTextSplitter.splitText with the default separators
"\n\n", "\n", " ", "" and keepSeparator = false). -/

/-- Decides whether the pattern list is an initial segment of the text
(the prefix test used by the substring scan below). -/
def leadsWith : Str → Str → Bool
  | [], _ => true
  | _ :: _, [] => false
  | a :: as, b :: bs => a = b && leadsWith as bs

/-- Decides JS text.includes(sep): the separator occurs somewhere in the text. -/
def containsSeq (text sep : Str) : Bool :=
  match text with
  | [] => sep.isEmpty
  | _ :: rest => leadsWith sep text || containsSeq rest sep

/-- Scanning loop of JS text.split(sep) for a non-empty separator: cuts the
text at each non-overlapping left-to-right occurrence of the separator.
Every call has a non-empty separator (splitOnSep handles the empty separator
separately), so dropping sep.length - 1 characters of the tail drops exactly
the matched separator occurrence from the text.  The fuel argument, set to
the text length by splitOnSep, only bounds the recursion: every step
consumes at least one character, so the zero-fuel case is unreachable. -/
def splitGo (sep : Str) : Nat → Str → Str → List Str
  | _, [], acc => [acc]
  | 0, text, acc => [acc ++ text]
  | fuel + 1, c :: rest, acc =>
    if leadsWith sep (c :: rest) then
      acc :: splitGo sep fuel (rest.drop (sep.length - 1)) []
    else
      splitGo sep fuel rest (acc ++ [c])

/-- JS text.split(sep): for the empty separator the text splits into its
individual characters, otherwise it is cut at each occurrence of sep. -/
def splitOnSep (sep text : Str) : List Str :=
  if sep.isEmpty then text.map (fun c => [c]) else splitGo sep text.length text []

/-- Whitespace predicate of JS String.prototype.trim for the characters this
model manipulates. -/
def isJsSpace (c : Char) : Bool :=
  c = ' ' || c = '\n' || c = '\t' || c = '\r'

/-- JS string.trim(): drop whitespace from both ends. -/
def jsTrim (s : Str) : Str :=
  ((s.dropWhile isJsSpace).reverse.dropWhile isJsSpace).reverse

/-- JS array.join(sep) on a list of strings. -/
def joinSep (sep : Str) : List Str → Str
  | [] => []
  | [d] => d
  | d :: rest => d ++ sep ++ joinSep sep rest

/-- TextSplitter.joinDocs: join the pending splits with the separator, trim,
and drop the result when it is empty. -/
def joinDocs (sep : Str) (docs : List Str) : Option Str :=
  if jsTrim (joinSep sep docs) = [] then none
  else some (jsTrim (joinSep sep docs))

/-- Eviction loop of TextSplitter.mergeSplits: pop splits from the front of
the current window while the running total exceeds the overlap, or while the
incoming split would push the window past the chunk size.  (When the window
is empty the JS loop condition is false in every reachable state, so the
empty case returns the window unchanged.) -/
def evictLoop (ov cs sepLen dLen : Nat) : List Str → Nat → List Str × Nat
  | [], total => ([], total)
  | d :: rest, total =>
    if total > ov ∨ (total + dLen + sepLen > cs ∧ total > 0) then
      evictLoop ov cs sepLen dLen rest
        (total - (d.length + if rest = [] then 0 else sepLen))
    else (d :: rest, total)

/-- State of the mergeSplits fold: emitted chunks, current window, and the
running character total of the window (lengths plus separators). -/
structure MergeState where
  docs : List Str
  cur : List Str
  total : Nat
deriving DecidableEq, Repr

/-- One iteration of the TextSplitter.mergeSplits loop for the incoming
split d: when d would overflow the chunk size, emit the joined window and
evict from its front; then push d and account for its length. -/
def mergeStep (cs ov : Nat) (sep : Str) (st : MergeState) (d : Str) : MergeState :=
  let flushed :=
    if st.total + d.length + (if st.cur = [] then 0 else sep.length) > cs ∧
        st.cur ≠ [] then
      let emitted := (joinDocs sep st.cur).toList
      let ev := evictLoop ov cs sep.length d.length st.cur st.total
      MergeState.mk (st.docs ++ emitted) ev.1 ev.2
    else st
  MergeState.mk flushed.docs (flushed.cur ++ [d])
    (flushed.total + d.length + if flushed.cur = [] then 0 else sep.length)

/-- TextSplitter.mergeSplits: greedily merge the splits into chunks of at
most chunkSize characters, carrying up to chunkOverlap characters of trailing
splits between adjacent chunks. -/
def mergeSplits (cs ov : Nat) (sep : Str) (splits : List Str) : List Str :=
  let st := splits.foldl (mergeStep cs ov sep) (MergeState.mk [] [] 0)
  st.docs ++ (joinDocs sep st.cur).toList

/-- Handling of an oversized split in splitText: when further separators
remain it is split recursively, otherwise it is pushed raw into the output
(JS: newSeparators undefined). -/
def recurseOut (recurse : Option (Str → List Str)) (s : Str) : List Str :=
  match recurse with
  | none => [s]
  | some f => f s

/-- Inner loop of RecursiveCharacterTextSplitter.splitText over the splits:
splits shorter than the chunk size accumulate as good splits; an oversized
split first flushes the accumulated good splits through mergeSplits, then is
recursively split with the remaining separators (or pushed raw when no
separators remain). -/
def processSplits (cs ov : Nat) (sep : Str) (recurse : Option (Str → List Str)) :
    List Str → List Str → List Str
  | good, [] => if good.isEmpty then [] else mergeSplits cs ov sep good
  | good, s :: rest =>
    if s.length < cs then
      processSplits cs ov sep recurse (good ++ [s]) rest
    else
      (if good.isEmpty then [] else mergeSplits cs ov sep good) ++
        recurseOut recurse s ++
        processSplits cs ov sep recurse [] rest

/-- RecursiveCharacterTextSplitter.splitText: scan the separator list for the
first separator that is empty or occurs in the text, split the text on it,
drop empty splits, and process the splits, recursing with the remaining
separators on oversized splits.  A matched non-empty separator passes the
remaining separators to the recursive call; the empty separator (or a final
unmatched separator) recurses no further. -/
def splitText (cs ov : Nat) : List Str → Str → List Str
  | [], _ => []
  | s :: rest, text =>
    if s.isEmpty then
      processSplits cs ov [] none []
        ((splitOnSep [] text).filter (fun x => !x.isEmpty))
    else if containsSeq text s then
      processSplits cs ov s (some (fun t => splitText cs ov rest t)) []
        ((splitOnSep s text).filter (fun x => !x.isEmpty))
    else if rest.isEmpty then
      processSplits cs ov s none []
        ((splitOnSep s text).filter (fun x => !x.isEmpty))
    else splitText cs ov rest text

/-- Default separator hierarchy of RecursiveCharacterTextSplitter. -/
def defaultSeparators : List Str := [['\n', '\n'], ['\n'], [' '], []]

/-- Chunk size configured by embedPDF (src/app/worker.ts line 120). -/
def chunkSizeConfig : Nat := 500

/-- Chunk overlap configured by embedPDF (src/app/worker.ts line 121). -/
def chunkOverlapConfig : Nat := 50

/-! ### Documents and PDF model -/

/-- Opaque metadata object returned by parsedPdf.getMetadata (pdf.js): the
worker only forwards its info and metadata fields, so they are modelled as
opaque string payloads. -/
structure PdfMeta where
  info : Str
  metaObj : Str
deriving DecidableEq, Repr

/-- Result of parsing a PDF with the pdf.js library (external): the ordered
pages, each given by the str values of its extracted text items, and the
metadata when getMetadata succeeded (the worker turns a getMetadata failure
into null via .catch, modelled as none).  numPages is the page count, i.e.
the length of the page list. -/
structure ParsedPdf where
  pages : List (List Str)
  meta : Option PdfMeta
deriving DecidableEq, Repr

/-- Version string of the bundled pdf.js build (pdf.version, the library is
imported from pdf-parse/lib/pdf.js/v1.10.100). -/
def pdfJsVersion : Str := str "1.10.100"

/-- Nested pdf metadata block attached to each page document
(src/app/worker.ts lines 105-110). -/
structure PdfGroup where
  version : Str
  info : Option Str
  metaObj : Option Str
  totalPages : Nat
deriving DecidableEq, Repr

/-- Nested loc metadata block attached to each page document
(src/app/worker.ts lines 111-113). -/
structure LocGroup where
  pageNumber : Nat
deriving DecidableEq, Repr

/-- Metadata of a langchain Document as built by embedPDF. -/
structure DocMetadata where
  pdf : PdfGroup
  loc : LocGroup
deriving DecidableEq, Repr

/-- A langchain Document: page content plus metadata. -/
structure Document where
  pageContent : Str
  metadata : DocMetadata
deriving DecidableEq, Repr

/-- Document built by embedPDF for page i (1-based): the text items of the page
joined with newlines, with the pdf version, optional info and metadata
payloads, total page count and page number recorded in the metadata. -/
def mkPageDoc (p : ParsedPdf) (i : Nat) (items : List Str) : Document :=
  { pageContent := joinSep ['\n'] items
    metadata :=
      { pdf :=
          { version := pdfJsVersion
            info := p.meta.map PdfMeta.info
            metaObj := p.meta.map PdfMeta.metaObj
            totalPages := p.pages.length }
        loc := { pageNumber := i } } }

/-- Page loop of embedPDF (src/app/worker.ts lines 89-117): for i from 1 to
numPages, skip the page when it has no text items, otherwise push one
document with the joined items and the page metadata. -/
def documentsOf (p : ParsedPdf) : List Document :=
  (List.range' 1 p.pages.length).foldl
    (fun acc i =>
      let items := (p.pages.get? (i - 1)).getD []
      if items.length = 0 then acc else acc ++ [mkPageDoc p i items])
    []

/-- splitter.splitDocuments: split the content of each document with splitText and
carry the metadata of the source document onto every resulting chunk. -/
def splitDocuments (cs ov : Nat) (docs : List Document) : List Document :=
  docs.flatMap (fun d =>
    (splitText cs ov defaultSeparators d.pageContent).map
      (fun t => { pageContent := t, metadata := d.metadata }))

/-- Chunks produced by embedPDF for a parsed PDF: the page documents split by
the RecursiveCharacterTextSplitter with chunkSize 500 and chunkOverlap 50. -/
def chunksOf (p : ParsedPdf) : List Document :=
  splitDocuments chunkSizeConfig chunkOverlapConfig (documentsOf p)

/-! ### Chat messages, prompts and the query flow -/

/-- Role of a chat window message (src/schema/ChatWindowMessage).
Modelled from the spec: the schema file is not under src/; the data
model of the spec gives role as the two-valued union of human and ai. -/
inductive Role where
  | human
  | ai
deriving DecidableEq, Repr

/-- Rendering of a role in template strings. -/
def roleStr : Role → Str
  | .human => str "human"
  | .ai => str "ai"

/-- Chat window message (src/schema/ChatWindowMessage).
Modelled from the spec: role is human or ai, content is a string. -/
structure ChatWindowMessage where
  role : Role
  content : Str
deriving DecidableEq, Repr

/-- Typed message object passed to the response prompt: role === "human"
yields a HumanMessage, anything else an AIMessage
(src/app/worker.ts lines 152-158). -/
inductive BaseMsg where
  | human (content : Str)
  | ai (content : Str)
deriving DecidableEq, Repr

/-- Conversion used when assembling the response prompt history. -/
def toBaseMsg (m : ChatWindowMessage) : BaseMsg :=
  if m.role = .human then .human m.content else .ai m.content

/-- History rendering passed as chat_history into the retrieval chain:
each message as a role-prefixed line, joined with newlines
(src/app/worker.ts line 147). -/
def joinHistory (hist : List ChatWindowMessage) : Str :=
  joinSep ['\n'] (hist.map (fun m => roleStr m.role ++ str ": " ++ m.content))

/-- REPHRASE_QUESTION_TEMPLATE (src/app/worker.ts lines 31-36) with its two
placeholders substituted, exactly as PromptTemplate.format produces it:
the joined chat history and the raw question embedded in the fixed text. -/
def rephrasePromptFor (chatHistory question : Str) : Str :=
  str "Given the following conversation and a follow up question, rephrase the follow up question to be a standalone question.\n\nChat History:\n" ++
    chatHistory ++ str "\nFollow Up Input: " ++ question ++
    str "\nStandalone Question:"

/-- Decimal rendering of a natural number, for the doc ids of formatDocs. -/
def natStr (n : Nat) : Str := (Nat.repr n).data

/-- Single quote character used by formatDocs around doc ids. -/
def sqChar : Char := Char.ofNat 39

/-- formatDocs (src/app/worker.ts lines 56-58): wrap each retrieved document
in a numbered doc tag and join with newlines. -/
def formatDocs (docs : List Document) : Str :=
  joinSep ['\n'] (docs.enum.map (fun p =>
    str "<doc id=" ++ [sqChar] ++ natStr p.1 ++ [sqChar] ++ str ">" ++
      p.2.pageContent ++ str "</doc>"))

/-- Input record of responseChain.stream (src/app/worker.ts lines 150-160):
the raw question, the history re-rendered as typed message objects, and the
retrieved context.  The fixed RESPONSE_SYSTEM_TEMPLATE text wrapped around
these variables by responseChainPrompt carries no claim-relevant data and is
not repeated here. -/
structure RInput where
  question : Str
  chat_history : List BaseMsg
  context : Str
deriving DecidableEq, Repr

/-- Inbound worker message: event.data with its pdf and messages fields,
each possibly absent. -/
structure InboundData where
  pdf : Option Str
  messages : Option (List ChatWindowMessage)
deriving DecidableEq, Repr

/-- Payload of a log event: the serialized inbound message logged on receipt,
or the chunk-document list logged by embedPDF. -/
inductive LogPayload where
  | received (d : InboundData)
  | docsPayload (docs : List Document)
deriving DecidableEq, Repr

/-- Outbound worker event posted with self.postMessage. -/
inductive Event where
  | log (p : LogPayload)
  | chunk (s : Str)
  | complete (s : Str)
deriving DecidableEq, Repr

/-- Observable action of the worker: an outbound event, a vector-store
insertion, a (rephrasing) LLM completion call, a retriever similarity-search
call, or the streaming LLM call of the response chain. -/
inductive WorkerAction where
  | emit (e : Event)
  | addDocuments (docs : List Document)
  | llmCall (prompt : Str)
  | retrieveCall (query : Str)
  | llmStreamCall (input : RInput)
deriving DecidableEq, Repr

/-- External collaborators of the worker, supplied as oracles: the rephrasing
LLM completion, the vector-store retriever, the response-model stream (the
fragment list it emits for a given input), and the PDF parser. -/
structure HostEnv where
  llm : Str → Str
  retrieve : Str → List Document
  streamFor : RInput → List Str
  parse : Str → ParsedPdf

/-- Literal "OK" payload of complete events. -/
def okStr : Str := str "OK"

/-- createRetrievalChain (src/app/worker.ts lines 60-76), composed with its
invocation: with a non-empty history the chain formats the rephrase prompt,
calls the LLM, parses the output to a string, queries the retriever with it
and formats the documents; with an empty history the chain queries the
retriever directly with input.question.  Returns the formatted context
together with the calls made, in order. -/
def createRetrievalChain (env : HostEnv) (chatHistory : List ChatWindowMessage)
    (question chatHistoryStr : Str) : Str × List WorkerAction :=
  if chatHistory.length ≠ 0 then
    let prompt := rephrasePromptFor chatHistoryStr question
    let standalone := env.llm prompt
    (formatDocs (env.retrieve standalone),
      [.llmCall prompt, .retrieveCall standalone])
  else
    (formatDocs (env.retrieve question), [.retrieveCall question])

/-- Streaming relay loop (src/app/worker.ts lines 162-169): each truthy
(non-empty) fragment of the model stream is posted as a chunk event in
stream order; falsy (empty) fragments produce no event. -/
def relayChunks : List Str → List WorkerAction
  | [] => []
  | c :: rest =>
    (if c.isEmpty then [] else [.emit (.chunk c)]) ++ relayChunks rest

/-- queryVectorStore (src/app/worker.ts lines 134-175): take the element at
index length - 1 as the question (none when the list is empty, where the JS
property access throws), the rest as history; run the retrieval chain, then
the streaming response chain, relay the fragments, and post a complete
event.  The result is the ordered action trace, or none when the flow cannot
proceed. -/
def queryVectorStore (env : HostEnv) (messages : List ChatWindowMessage) :
    Option (List WorkerAction) :=
  match messages.get? (messages.length - 1) with
  | none => none
  | some last =>
    let text := last.content
    let chatHistory := messages.dropLast
    let ret := createRetrievalChain env chatHistory text (joinHistory chatHistory)
    let rinput : RInput :=
      { question := text
        chat_history := chatHistory.map toBaseMsg
        context := ret.1 }
    some (ret.2 ++ [.llmStreamCall rinput] ++
      relayChunks (env.streamFor rinput) ++ [.emit (.complete okStr)])

/-- embedPDF (src/app/worker.ts lines 78-132) after the external parse: build
the per-page documents, split them into chunks, post a log event carrying the
full chunk list, then insert exactly those chunks into the vector store. -/
def embedPDF (env : HostEnv) (pdfDataUrl : Str) : List WorkerAction :=
  let docs := chunksOf (env.parse pdfDataUrl)
  [.emit (.log (.docsPayload docs)), .addDocuments docs]

/-- Truthiness of the pdf field of an inbound message: a present, non-empty
string is truthy; an absent or empty-string field is falsy. -/
def truthy : Option Str → Bool
  | none => false
  | some s => !s.isEmpty

/-- Flow an inbound message is routed to. -/
inductive Route where
  | ingest
  | query
deriving DecidableEq, Repr

/-- Dispatch of the message listener (src/app/worker.ts lines 184-188): the
branch condition is the truthiness of event.data.pdf and nothing else. -/
def routeOf (d : InboundData) : Route :=
  if truthy d.pdf then .ingest else .query

/-- Message listener (src/app/worker.ts lines 178-194): log the received
message, run the flow selected by routeOf (ingest on the pdf payload, query
on the messages field — none when the selected flow throws), and post a
final complete event.  Returns the ordered action trace of the invocation,
or none when the flow cannot proceed. -/
def handleMessage (env : HostEnv) (d : InboundData) : Option (List WorkerAction) :=
  let flow : Option (List WorkerAction) :=
    match routeOf d with
    | .ingest => some (embedPDF env ((d.pdf).getD []))
    | .query =>
      match d.messages with
      | none => none
      | some ms => queryVectorStore env ms
  flow.map (fun acts =>
    .emit (.log (.received d)) :: acts ++ [.emit (.complete okStr)])

/-- Projection of an action trace onto the posted events. -/
def eventsOf (acts : List WorkerAction) : List Event :=
  acts.filterMap (fun a =>
    match a with
    | .emit e => some e
    | _ => none)

/-- Character weight of a merge window: element lengths plus one separator
between each adjacent pair, i.e. the length of the joined window. -/
def weight (sepLen : Nat) : List Str → Nat
  | [] => 0
  | [d] => d.length
  | d :: rest => d.length + sepLen + weight sepLen rest

/-- Invariant of the mergeSplits fold: the running total is the weight
of the window and stays within the chunk size, window elements are non-empty, and
every emitted chunk fits in the chunk size. -/
def MergeInv (cs sepLen : Nat) (st : MergeState) : Prop :=
  st.total = weight sepLen st.cur ∧ st.total ≤ cs ∧
    (∀ x ∈ st.cur, x ≠ []) ∧ ∀ c ∈ st.docs, c.length ≤ cs

/-- Input of the streaming response call made by queryVectorStore for a
message list whose last element is last: the raw question, the history as
typed messages, and the context returned by the retrieval chain. -/
def queryRInput (env : HostEnv) (ms : List ChatWindowMessage)
    (last : ChatWindowMessage) : RInput :=
  RInput.mk last.content (ms.dropLast.map toBaseMsg)
    (createRetrievalChain env ms.dropLast last.content
        (joinHistory ms.dropLast)).1

/-- Classifier for complete events in an action trace. -/
def isCompleteB (a : WorkerAction) : Bool :=
  match a with
  | .emit (.complete _) => true
  | _ => false

/-- Classifier for rephrasing LLM completion calls in an action trace. -/
def isLlmCallB (a : WorkerAction) : Bool :=
  match a with
  | .llmCall _ => true
  | _ => false

/-- Classifier for retriever calls in an action trace. -/
def isRetrieveCallB (a : WorkerAction) : Bool :=
  match a with
  | .retrieveCall _ => true
  | _ => false

/-- Concrete host environment used to instantiate universally quantified
theorems at a specific input: the LLM echoes its prompt, the retriever finds
nothing, the model stream is empty, and parsing yields an empty PDF. -/
def trivialEnv : HostEnv :=
  { llm := fun s => s
    retrieve := fun _ => []
    streamFor := fun _ => []
    parse := fun _ => ParsedPdf.mk [] none }

/-! ### Chunk-length bound for the splitter -/

theorem length_dropWhile_le (p : Char → Bool) (l : Str) :
    (l.dropWhile p).length ≤ l.length := by
  induction l with
  | nil => simp [List.dropWhile]
  | cons a t ih =>
    by_cases h : p a
    · rw [List.dropWhile_cons_of_pos h]
      simp only [List.length_cons]
      omega
    · rw [List.dropWhile_cons_of_neg h]

theorem joinSep_length (sep : Str) (l : List Str) :
    (joinSep sep l).length = weight sep.length l := by
  induction l with
  | nil => rfl
  | cons d rest ih =>
    cases rest with
    | nil => rfl
    | cons e tail =>
      simp only [joinSep, weight, List.length_append, ih]
      try omega

theorem jsTrim_length_le (s : Str) : (jsTrim s).length ≤ s.length := by
  have h1 := length_dropWhile_le isJsSpace ((s.dropWhile isJsSpace).reverse)
  have h2 := length_dropWhile_le isJsSpace s
  simp only [jsTrim, List.length_reverse] at h1 ⊢
  omega

theorem joinDocs_length_le (sep : Str) (l : List Str) (c : Str)
    (h : joinDocs sep l = some c) : c.length ≤ weight sep.length l := by
  unfold joinDocs at h
  split at h
  · exact absurd h (by simp)
  · have hc : c = jsTrim (joinSep sep l) := (Option.some.injEq _ _ ▸ h).symm
    rw [hc]
    calc (jsTrim (joinSep sep l)).length
        ≤ (joinSep sep l).length := jsTrim_length_le _
      _ = weight sep.length l := joinSep_length sep l

theorem weight_append_single (k : Nat) :
    ∀ (xs : List Str) (d : Str),
      weight k (xs ++ [d]) =
        weight k xs + d.length + (if xs = [] then 0 else k)
  | [], d => by simp [weight]
  | [x], d => by
    simp only [List.cons_append, List.nil_append, weight]
    simp only [List.cons_ne_nil, if_false]
    omega
  | x :: y :: tail, d => by
    have ih := weight_append_single k (y :: tail) d
    simp only [List.cons_append, List.append_eq, weight, List.cons_ne_nil,
      if_false] at ih ⊢
    omega

theorem weight_pos (k : Nat) (d : Str) (rest : List Str) (hd : d ≠ []) :
    0 < weight k (d :: rest) := by
  have hlen : 0 < d.length := List.length_pos.mpr hd
  cases rest with
  | nil => simpa [weight] using hlen
  | cons e tail => simp [weight]; omega

theorem evictLoop_spec (ov cs sepLen dLen : Nat) :
    ∀ (cur : List Str) (total : Nat),
      total = weight sepLen cur → (∀ x ∈ cur, x ≠ []) →
      (evictLoop ov cs sepLen dLen cur total).2 =
          weight sepLen (evictLoop ov cs sepLen dLen cur total).1 ∧
        (∀ x ∈ (evictLoop ov cs sepLen dLen cur total).1, x ≠ []) ∧
        (evictLoop ov cs sepLen dLen cur total).2 ≤ ov ∧
        ((evictLoop ov cs sepLen dLen cur total).1 = [] ∨
          (evictLoop ov cs sepLen dLen cur total).2 + dLen + sepLen ≤ cs)
  | [], total => by
    intro hb _
    have h0 : total = 0 := by simpa [weight] using hb
    refine ⟨?_, ?_, ?_, ?_⟩ <;> simp [evictLoop, weight, h0]
  | d :: rest, total => by
    intro hb hne
    rw [evictLoop]
    by_cases hc : total > ov ∨ (total + dLen + sepLen > cs ∧ total > 0)
    · rw [if_pos hc]
      apply evictLoop_spec ov cs sepLen dLen rest
      · rw [hb]
        cases rest with
        | nil => simp [weight]
        | cons e tail => simp [weight]
      · intro x hx
        exact hne x (List.mem_cons_of_mem d hx)
    · rw [if_neg hc]
      have hdne : d ≠ [] := hne d (List.mem_cons_self d rest)
      have hpos : 0 < total := hb ▸ weight_pos sepLen d rest hdne
      push_neg at hc
      have hcs : total + dLen + sepLen ≤ cs := by
        by_contra hgt
        push_neg at hgt
        have h3 := hc.2 hgt
        omega
      exact ⟨hb, hne, hc.1, Or.inr hcs⟩

theorem mergeStep_eq_pos (cs ov : Nat) (sep : Str) (st : MergeState) (d : Str)
    (h : st.total + d.length + (if st.cur = [] then 0 else sep.length) > cs ∧
      st.cur ≠ []) :
    mergeStep cs ov sep st d =
      MergeState.mk (st.docs ++ (joinDocs sep st.cur).toList)
        ((evictLoop ov cs sep.length d.length st.cur st.total).1 ++ [d])
        ((evictLoop ov cs sep.length d.length st.cur st.total).2 + d.length +
          if (evictLoop ov cs sep.length d.length st.cur st.total).1 = []
          then 0 else sep.length) := by
  unfold mergeStep
  rw [if_pos h]

theorem mergeStep_eq_neg (cs ov : Nat) (sep : Str) (st : MergeState) (d : Str)
    (h : ¬(st.total + d.length + (if st.cur = [] then 0 else sep.length) > cs ∧
      st.cur ≠ [])) :
    mergeStep cs ov sep st d =
      MergeState.mk st.docs (st.cur ++ [d])
        (st.total + d.length + if st.cur = [] then 0 else sep.length) := by
  unfold mergeStep
  rw [if_neg h]

theorem mergeStep_inv (cs ov : Nat) (sep : Str) (st : MergeState) (d : Str)
    (hinv : MergeInv cs sep.length st) (hd : d ≠ []) (hlt : d.length < cs) :
    MergeInv cs sep.length (mergeStep cs ov sep st d) := by
  obtain ⟨hb, hle, hcur, hdocs⟩ := hinv
  by_cases htr : st.total + d.length + (if st.cur = [] then 0 else sep.length) > cs ∧
      st.cur ≠ []
  · rw [mergeStep_eq_pos cs ov sep st d htr]
    obtain ⟨hb', hne', hov', hcs'⟩ :=
      evictLoop_spec ov cs sep.length d.length st.cur st.total hb hcur
    set ev := evictLoop ov cs sep.length d.length st.cur st.total with hevdef
    refine ⟨?_, ?_, ?_, ?_⟩
    · show ev.2 + d.length + _ = weight sep.length (ev.1 ++ [d])
      rw [weight_append_single, hb']
    · show ev.2 + d.length + _ ≤ cs
      rcases hcs' with hnil | hfit
      · rw [hnil] at hb'
        simp only [weight] at hb'
        rw [hnil, hb']
        simp
        omega
      · by_cases hevnil : ev.1 = []
        · rw [hevnil] at hb'
          simp only [weight] at hb'
          rw [hevnil, hb']
          simp
          omega
        · rw [if_neg hevnil]
          omega
    · intro x hx
      rcases List.mem_append.mp hx with hx1 | hx2
      · exact hne' x hx1
      · rw [List.mem_singleton.mp hx2]; exact hd
    · intro c hc
      rcases List.mem_append.mp hc with hc1 | hc2
      · exact hdocs c hc1
      · have hsome : joinDocs sep st.cur = some c := by
          rcases hj : joinDocs sep st.cur with _ | v
          · simp [hj] at hc2
          · simp only [hj, Option.toList_some, List.mem_singleton] at hc2
            rw [hc2]
        calc c.length ≤ weight sep.length st.cur :=
              joinDocs_length_le sep st.cur c hsome
          _ = st.total := hb.symm
          _ ≤ cs := hle
  · rw [mergeStep_eq_neg cs ov sep st d htr]
    refine ⟨?_, ?_, ?_, hdocs⟩
    · show st.total + d.length + _ = weight sep.length (st.cur ++ [d])
      rw [weight_append_single, hb]
    · show st.total + d.length + _ ≤ cs
      by_cases hnil : st.cur = []
      · have h0 : st.total = 0 := by rw [hb, hnil]; rfl
        rw [hnil, h0]
        simp
        omega
      · rw [if_neg hnil]
        rcases Nat.lt_or_ge cs
            (st.total + d.length + (if st.cur = [] then 0 else sep.length))
          with hgt | hge
        · exact absurd ⟨hgt, hnil⟩ htr
        · rw [if_neg hnil] at hge
          omega
    · intro x hx
      rcases List.mem_append.mp hx with hx1 | hx2
      · exact hcur x hx1
      · rw [List.mem_singleton.mp hx2]; exact hd

theorem foldl_mergeStep_inv (cs ov : Nat) (sep : Str) :
    ∀ (splits : List Str) (st : MergeState),
      MergeInv cs sep.length st →
      (∀ s ∈ splits, s ≠ [] ∧ s.length < cs) →
      MergeInv cs sep.length (splits.foldl (mergeStep cs ov sep) st)
  | [], st => fun hinv _ => hinv
  | d :: rest, st => fun hinv hall => by
    rw [List.foldl_cons]
    apply foldl_mergeStep_inv cs ov sep rest
    · exact mergeStep_inv cs ov sep st d hinv
        (hall d (List.mem_cons_self d rest)).1
        (hall d (List.mem_cons_self d rest)).2
    · intro s hs
      exact hall s (List.mem_cons_of_mem d hs)

/-- Every chunk produced by mergeSplits from non-empty splits shorter than
the chunk size has length at most the chunk size. -/
theorem mergeSplits_le (cs ov : Nat) (sep : Str) (splits : List Str)
    (hall : ∀ s ∈ splits, s ≠ [] ∧ s.length < cs) :
    ∀ c ∈ mergeSplits cs ov sep splits, c.length ≤ cs := by
  intro c hc
  have hinv0 : MergeInv cs sep.length (MergeState.mk [] [] 0) := by
    refine ⟨rfl, Nat.zero_le cs, ?_, ?_⟩ <;> simp
  have hinv := foldl_mergeStep_inv cs ov sep splits (MergeState.mk [] [] 0)
    hinv0 hall
  obtain ⟨hb, hle, _, hdocs⟩ := hinv
  unfold mergeSplits at hc
  rcases List.mem_append.mp hc with hc1 | hc2
  · exact hdocs c hc1
  · set st := splits.foldl (mergeStep cs ov sep) (MergeState.mk [] [] 0)
    have hsome : joinDocs sep st.cur = some c := by
      rcases hj : joinDocs sep st.cur with _ | v
      · simp [hj] at hc2
      · simp only [hj, Option.toList_some, List.mem_singleton] at hc2
        rw [hc2]
    calc c.length ≤ weight sep.length st.cur :=
          joinDocs_length_le sep st.cur c hsome
      _ = st.total := hb.symm
      _ ≤ cs := hle

/-- Every chunk produced by the split-processing loop fits in the chunk
size, provided accumulated good splits are non-empty and short, incoming
splits are non-empty, and recursion on oversized splits yields only fitting
chunks. -/
theorem processSplits_le (cs ov : Nat) (sep : Str)
    (recurse : Option (Str → List Str)) (splits : List Str) :
    ∀ (good : List Str),
      (∀ s ∈ good, s ≠ [] ∧ s.length < cs) →
      (∀ s ∈ splits, s ≠ []) →
      (∀ s ∈ splits, cs ≤ s.length →
        ∀ c ∈ recurseOut recurse s, c.length ≤ cs) →
      ∀ c ∈ processSplits cs ov sep recurse good splits, c.length ≤ cs := by
  induction splits with
  | nil =>
    intro good hgood _ _ c hc
    unfold processSplits at hc
    by_cases hg : good.isEmpty
    · simp [hg] at hc
    · rw [if_neg hg] at hc
      exact mergeSplits_le cs ov sep good hgood c hc
  | cons s rest ih =>
    intro good hgood hne hbig c hc
    unfold processSplits at hc
    by_cases hs : s.length < cs
    · rw [if_pos hs] at hc
      refine ih (good ++ [s]) ?_ ?_ ?_ c hc
      · intro x hx
        rcases List.mem_append.mp hx with hx1 | hx2
        · exact hgood x hx1
        · rw [List.mem_singleton.mp hx2]
          exact ⟨hne s (List.mem_cons_self s rest), hs⟩
      · intro x hx
        exact hne x (List.mem_cons_of_mem s hx)
      · intro x hx
        exact hbig x (List.mem_cons_of_mem s hx)
    · rw [if_neg hs] at hc
      rcases List.mem_append.mp hc with hc1 | hc2
      · rcases List.mem_append.mp hc1 with hcf | hcm
        · by_cases hg : good.isEmpty
          · simp [hg] at hcf
          · rw [if_neg hg] at hcf
            exact mergeSplits_le cs ov sep good hgood c hcf
        · exact hbig s (List.mem_cons_self s rest) (Nat.le_of_not_lt hs) c hcm
      · refine ih [] ?_ ?_ ?_ c hc2
        · intro x hx
          simp at hx
        · intro x hx
          exact hne x (List.mem_cons_of_mem s hx)
        · intro x hx
          exact hbig x (List.mem_cons_of_mem s hx)


theorem splitOnSep_nil_mem (text : Str) (x : Str)
    (hx : x ∈ splitOnSep [] text) : x.length = 1 := by
  unfold splitOnSep at hx
  simp only [List.isEmpty_nil, if_true] at hx
  rcases List.mem_map.mp hx with ⟨c, _, hc⟩
  rw [← hc]
  rfl

/-- Every chunk produced by splitText fits in the chunk size, for any chunk
size of at least 2 and any separator hierarchy that ends in the empty
separator (in particular the default one used by embedPDF). -/
theorem splitText_le (cs ov : Nat) (hcs : 2 ≤ cs) :
    ∀ (seps : List Str), [] ∈ seps →
      ∀ (text : Str), ∀ c ∈ splitText cs ov seps text, c.length ≤ cs
  | [], hmem => by simp at hmem
  | s :: rest, hmem => fun text c hc => by
    rw [splitText] at hc
    by_cases hse : s.isEmpty
    · rw [if_pos hse] at hc
      refine processSplits_le cs ov [] none _ [] ?_ ?_ ?_ c hc
      · intro x hx
        simp at hx
      · intro x hx
        simpa using (List.mem_filter.mp hx).2
      · intro x hx hxlen c' hc'
        have h1 : x.length = 1 :=
          splitOnSep_nil_mem text x (List.mem_filter.mp hx).1
        omega
    · rw [if_neg hse] at hc
      have hsne : s ≠ [] := by
        cases s
        · simp at hse
        · simp
      have hrest : [] ∈ rest := by
        rcases List.mem_cons.mp hmem with h | h
        · exact absurd h.symm hsne
        · exact h
      by_cases hcont : containsSeq text s
      · rw [if_pos hcont] at hc
        refine processSplits_le cs ov s (some (fun t => splitText cs ov rest t))
          _ [] ?_ ?_ ?_ c hc
        · intro x hx
          simp at hx
        · intro x hx
          simpa using (List.mem_filter.mp hx).2
        · intro x _ _ c' hc'
          exact splitText_le cs ov hcs rest hrest x c' hc'
      · rw [if_neg hcont] at hc
        have hrne : ¬rest.isEmpty := by
          cases rest
          · simp at hrest
          · simp
        rw [if_neg hrne] at hc
        exact splitText_le cs ov hcs rest hrest text c hc

/-! ### Claim theorems -/

/-- C7 (amended): document splitting during ingest uses the recursive
separator-aware character splitter configured with chunk size 500 and
overlap 50, and every chunk inserted into the vector index has content of
at most 500 characters. -/
theorem chunk_length_le_500 (p : ParsedPdf) (c : Document)
    (hc : c ∈ chunksOf p) : c.pageContent.length ≤ 500 := by
  unfold chunksOf splitDocuments at hc
  rcases List.mem_flatMap.mp hc with ⟨d, _, hcd⟩
  rcases List.mem_map.mp hcd with ⟨t, ht, hct⟩
  have hb := splitText_le chunkSizeConfig chunkOverlapConfig (by decide)
    defaultSeparators (by decide) d.pageContent t ht
  rw [← hct]
  exact hb

/-- C7 witness: a one-page PDF whose text is a short greeting produces one
chunk, and the bound theorem applies to it. -/
theorem chunk_length_le_500_witness :
    (Document.mk (str "hello world")
        (DocMetadata.mk (PdfGroup.mk pdfJsVersion none none 1) (LocGroup.mk 1)))
        ∈ chunksOf (ParsedPdf.mk [[str "hello world"]] none) ∧
      (Document.mk (str "hello world")
        (DocMetadata.mk (PdfGroup.mk pdfJsVersion none none 1) (LocGroup.mk 1))).pageContent.length ≤ 500 :=
  ⟨by decide,
    chunk_length_le_500 (ParsedPdf.mk [[str "hello world"]] none) _ (by decide)⟩

/-- C7 counterexample: on a 602-character page consisting of 300 letters, a
paragraph break and 300 more letters, the splitter cuts at the paragraph
break, producing two 300-character chunks.  Pure character-count windows of
size 500 would instead make the first chunk the first 500 characters, and
the adjacent chunks share no 50-character overlap even though the source
text is long enough to allow one. -/
theorem chunks_not_char_windows :
    splitText 500 50 defaultSeparators
        (List.replicate 300 'a' ++ ['\n', '\n'] ++ List.replicate 300 'b') =
      [List.replicate 300 'a', List.replicate 300 'b'] ∧
    List.replicate 300 'a' ≠
      (List.replicate 300 'a' ++ ['\n', '\n'] ++
        List.replicate 300 'b').take 500 ∧
    (List.replicate 300 'b').take 50 ≠
      (List.replicate 300 'a').drop 250 := by
  refine ⟨by decide, by decide, by decide⟩

/-! ### Streaming relay and query-flow theorems -/

theorem relayChunks_eq (stream : List Str) :
    relayChunks stream =
      (stream.filter (fun c => !c.isEmpty)).map
        (fun c => WorkerAction.emit (Event.chunk c)) := by
  induction stream with
  | nil => rfl
  | cons c rest ih =>
    by_cases hc : c.isEmpty
    · simp [relayChunks, List.filter_cons, hc, ih]
    · simp [relayChunks, List.filter_cons, hc, ih]

/-- C4: during answer generation, every non-empty fragment produced by the
model stream is forwarded as a chunk event in stream emission order
with no batching or reordering, and empty fragments produce no event: the
relay loop equals filtering out empty fragments and mapping each remaining
fragment to its chunk event. -/
theorem stream_fragments_forwarded (stream : List Str) :
    relayChunks stream =
      (stream.filter (fun c => !c.isEmpty)).map
        (fun c => WorkerAction.emit (Event.chunk c)) :=
  relayChunks_eq stream

/-- C9: the query flow requires a non-empty message list: on the empty list
the read of index length - 1 yields nothing and queryVectorStore cannot
proceed, while every non-empty list is processed to an action trace. -/
theorem query_requires_nonempty_messages (env : HostEnv) :
    queryVectorStore env [] = none ∧
    ∀ ms : List ChatWindowMessage, ms ≠ [] →
      (queryVectorStore env ms).isSome = true := by
  constructor
  · rfl
  · intro ms hne
    unfold queryVectorStore
    have hlt : ms.length - 1 < ms.length := by
      have : 0 < ms.length := List.length_pos.mpr hne
      omega
    rw [List.get?_eq_get hlt]
    simp

/-- C9 witness: the empty message list is rejected and a one-message list is
processed. -/
theorem query_requires_nonempty_messages_witness :
    queryVectorStore trivialEnv [] = none ∧
    (queryVectorStore trivialEnv
      [ChatWindowMessage.mk Role.human (str "hi")]).isSome = true :=
  ⟨(query_requires_nonempty_messages trivialEnv).1,
    (query_requires_nonempty_messages trivialEnv).2 _ (by decide)⟩

/-- C10: inbound dispatch branches only on the truthiness of the pdf field:
absent or empty-string pdf routes to the query flow, non-empty pdf routes to
ingest, and the messages field never influences the routing. -/
theorem dispatch_on_pdf_truthiness (d : InboundData) :
    (routeOf d = Route.query ↔ (d.pdf = none ∨ d.pdf = some [])) ∧
    (routeOf d = Route.ingest ↔ ∃ s, d.pdf = some s ∧ s ≠ []) ∧
    ∀ m, routeOf (InboundData.mk d.pdf m) = routeOf d := by
  obtain ⟨pdf, msgs⟩ := d
  refine ⟨?_, ?_, fun m => rfl⟩
  · cases pdf with
    | none => simp [routeOf, truthy]
    | some s => cases s <;> simp [routeOf, truthy]
  · cases pdf with
    | none => simp [routeOf, truthy]
    | some s =>
      cases s with
      | nil => simp [routeOf, truthy]
      | cons c cs =>
        simp only [routeOf, truthy, List.isEmpty_cons, Bool.not_false, if_pos]
        constructor
        · intro _
          exact ⟨c :: cs, rfl, by simp⟩
        · intro _
          trivial

/-- C2: for a query whose history is empty (a singleton message list), the
raw content of the last message is the retrieval query, the trace starts
with that retriever call, and no rephrasing LLM call occurs anywhere in the
invocation. -/
theorem query_empty_history_trace (env : HostEnv) (m : ChatWindowMessage) :
    queryVectorStore env [m] =
      some (WorkerAction.retrieveCall m.content ::
        WorkerAction.llmStreamCall
          (RInput.mk m.content [] (formatDocs (env.retrieve m.content))) ::
        (relayChunks (env.streamFor
            (RInput.mk m.content [] (formatDocs (env.retrieve m.content)))) ++
          [WorkerAction.emit (Event.complete okStr)])) ∧
    ∀ acts, queryVectorStore env [m] = some acts →
      acts.countP isLlmCallB = 0 := by
  have h1 : queryVectorStore env [m] =
      some (WorkerAction.retrieveCall m.content ::
        WorkerAction.llmStreamCall
          (RInput.mk m.content [] (formatDocs (env.retrieve m.content))) ::
        (relayChunks (env.streamFor
            (RInput.mk m.content [] (formatDocs (env.retrieve m.content)))) ++
          [WorkerAction.emit (Event.complete okStr)])) := rfl
  refine ⟨h1, ?_⟩
  intro acts hacts
  rw [h1] at hacts
  have hacts' := Option.some.inj hacts
  rw [← hacts']
  simp [List.countP_cons, List.countP_append, relayChunks_eq, isLlmCallB,
    List.countP_eq_zero]

theorem createRetrievalChain_pos (env : HostEnv)
    (ch : List ChatWindowMessage) (q hs : Str) (h : ch.length ≠ 0) :
    createRetrievalChain env ch q hs =
      (formatDocs (env.retrieve (env.llm (rephrasePromptFor hs q))),
        [WorkerAction.llmCall (rephrasePromptFor hs q),
          WorkerAction.retrieveCall (env.llm (rephrasePromptFor hs q))]) := by
  unfold createRetrievalChain
  rw [if_pos h]

theorem createRetrievalChain_neg (env : HostEnv)
    (ch : List ChatWindowMessage) (q hs : Str) (h : ¬ch.length ≠ 0) :
    createRetrievalChain env ch q hs =
      (formatDocs (env.retrieve q), [WorkerAction.retrieveCall q]) := by
  unfold createRetrievalChain
  rw [if_neg h]

/-- C3: for a query with non-empty history, the trace opens with exactly one
rephrasing LLM call followed directly by the retriever call; the rephrase
prompt embeds the role-prefixed joined history and the raw question, and the
text sent to the retriever is the rewritten output of the LLM applied to that
prompt, not the raw question. -/
theorem query_nonempty_history_trace (env : HostEnv)
    (ms : List ChatWindowMessage) (last : ChatWindowMessage)
    (hlast : ms.get? (ms.length - 1) = some last)
    (hh : ms.dropLast ≠ []) :
    queryVectorStore env ms =
      some (WorkerAction.llmCall
          (rephrasePromptFor (joinHistory ms.dropLast) last.content) ::
        WorkerAction.retrieveCall
          (env.llm (rephrasePromptFor (joinHistory ms.dropLast) last.content)) ::
        WorkerAction.llmStreamCall (queryRInput env ms last) ::
        (relayChunks (env.streamFor (queryRInput env ms last)) ++
          [WorkerAction.emit (Event.complete okStr)])) ∧
    (∃ l r, rephrasePromptFor (joinHistory ms.dropLast) last.content =
        l ++ joinHistory ms.dropLast ++ r) ∧
    (∃ l r, rephrasePromptFor (joinHistory ms.dropLast) last.content =
        l ++ last.content ++ r) ∧
    ∀ acts, queryVectorStore env ms = some acts →
      acts.takeWhile (fun a => !isRetrieveCallB a) =
        [WorkerAction.llmCall
          (rephrasePromptFor (joinHistory ms.dropLast) last.content)] := by
  have hlen : ms.dropLast.length ≠ 0 := by
    intro h0
    exact hh (List.length_eq_zero.mp h0)
  have h1 : queryVectorStore env ms =
      some (WorkerAction.llmCall
          (rephrasePromptFor (joinHistory ms.dropLast) last.content) ::
        WorkerAction.retrieveCall
          (env.llm (rephrasePromptFor (joinHistory ms.dropLast) last.content)) ::
        WorkerAction.llmStreamCall (queryRInput env ms last) ::
        (relayChunks (env.streamFor (queryRInput env ms last)) ++
          [WorkerAction.emit (Event.complete okStr)])) := by
    have hcrc := createRetrievalChain_pos env ms.dropLast last.content
      (joinHistory ms.dropLast) hlen
    unfold queryVectorStore
    rw [hlast]
    dsimp only
    rw [hcrc]
    unfold queryRInput
    rw [hcrc]
    simp
  refine ⟨h1, ⟨?_, ?_, ?_⟩⟩
  · exact ⟨str "Given the following conversation and a follow up question, rephrase the follow up question to be a standalone question.\n\nChat History:\n",
      str "\nFollow Up Input: " ++ last.content ++ str "\nStandalone Question:",
      by simp [rephrasePromptFor]⟩
  · exact ⟨str "Given the following conversation and a follow up question, rephrase the follow up question to be a standalone question.\n\nChat History:\n" ++
        joinHistory ms.dropLast ++ str "\nFollow Up Input: ",
      str "\nStandalone Question:",
      by simp [rephrasePromptFor]⟩
  · intro acts hacts
    rw [h1] at hacts
    rw [← Option.some.inj hacts]
    simp [List.takeWhile_cons, isRetrieveCallB]

theorem queryVectorStore_some (env : HostEnv) (ms : List ChatWindowMessage)
    (last : ChatWindowMessage)
    (hlast : ms.get? (ms.length - 1) = some last) :
    queryVectorStore env ms =
      some ((createRetrievalChain env ms.dropLast last.content
          (joinHistory ms.dropLast)).2 ++
        [WorkerAction.llmStreamCall (queryRInput env ms last)] ++
        relayChunks (env.streamFor (queryRInput env ms last)) ++
        [WorkerAction.emit (Event.complete okStr)]) := by
  unfold queryVectorStore
  rw [hlast]
  dsimp only
  unfold queryRInput
  rfl

theorem eventsOf_retrieval (env : HostEnv) (ch : List ChatWindowMessage)
    (q hs : Str) : eventsOf (createRetrievalChain env ch q hs).2 = [] := by
  by_cases h : ch.length ≠ 0
  · rw [createRetrievalChain_pos env ch q hs h]
    rfl
  · rw [createRetrievalChain_neg env ch q hs h]
    rfl

theorem eventsOf_relayChunks (stream : List Str) :
    eventsOf (relayChunks stream) =
      (stream.filter (fun c => !c.isEmpty)).map Event.chunk := by
  induction stream with
  | nil => rfl
  | cons c rest ih =>
    unfold eventsOf at ih ⊢
    by_cases hc : c.isEmpty <;>
      simp [relayChunks, List.filter_cons, hc, ih]

/-- C1 (amended): every query invocation emits, after the initial received
log, zero or more chunk events followed by exactly two complete events in
that order — queryVectorStore posts one complete and the message handler
posts a second — including when the model stream yields no fragments. -/
theorem query_event_trace (env : HostEnv) (d : InboundData)
    (ms : List ChatWindowMessage) (last : ChatWindowMessage)
    (hpdf : truthy d.pdf = false)
    (hmsgs : d.messages = some ms)
    (hlast : ms.get? (ms.length - 1) = some last) :
    ∃ acts, handleMessage env d = some acts ∧
      eventsOf acts =
        Event.log (LogPayload.received d) ::
          (((env.streamFor (queryRInput env ms last)).filter
              (fun c => !c.isEmpty)).map Event.chunk ++
            [Event.complete okStr, Event.complete okStr]) := by
  have hq := queryVectorStore_some env ms last hlast
  have hroute : routeOf d = Route.query := by
    unfold routeOf
    rw [hpdf]
    rfl
  have hhandle : handleMessage env d =
      some (WorkerAction.emit (Event.log (LogPayload.received d)) ::
        ((createRetrievalChain env ms.dropLast last.content
            (joinHistory ms.dropLast)).2 ++
          [WorkerAction.llmStreamCall (queryRInput env ms last)] ++
          relayChunks (env.streamFor (queryRInput env ms last)) ++
          [WorkerAction.emit (Event.complete okStr)]) ++
        [WorkerAction.emit (Event.complete okStr)]) := by
    unfold handleMessage
    rw [hroute, hmsgs]
    dsimp only
    rw [hq]
    rfl
  refine ⟨_, hhandle, ?_⟩
  unfold eventsOf
  simp only [List.filterMap_cons, List.filterMap_append]
  have h1 : eventsOf (createRetrievalChain env ms.dropLast last.content
      (joinHistory ms.dropLast)).2 = [] := eventsOf_retrieval env _ _ _
  have h2 : eventsOf (relayChunks (env.streamFor (queryRInput env ms last))) =
      ((env.streamFor (queryRInput env ms last)).filter
        (fun c => !c.isEmpty)).map Event.chunk :=
    eventsOf_relayChunks _
  unfold eventsOf at h1 h2
  rw [h1, h2]
  simp

/-- C1 counterexample: a query invocation with an empty model stream emits
two complete events, not exactly one, so the claimed single-complete shape
fails. -/
theorem query_complete_count_not_one :
    ((handleMessage trivialEnv
        (InboundData.mk none
          (some [ChatWindowMessage.mk Role.human (str "hi")]))).getD
        []).countP isCompleteB ≠ 1 := by
  decide

/-- C1 witness: the amended trace shape at a concrete one-message query. -/
theorem query_event_trace_witness :
    ∃ acts, handleMessage trivialEnv
        (InboundData.mk none
          (some [ChatWindowMessage.mk Role.human (str "hi")])) = some acts ∧
      eventsOf acts =
        Event.log (LogPayload.received (InboundData.mk none
          (some [ChatWindowMessage.mk Role.human (str "hi")]))) ::
          (((trivialEnv.streamFor (queryRInput trivialEnv
              [ChatWindowMessage.mk Role.human (str "hi")]
              (ChatWindowMessage.mk Role.human (str "hi")))).filter
              (fun c => !c.isEmpty)).map Event.chunk ++
            [Event.complete okStr, Event.complete okStr]) :=
  query_event_trace trivialEnv _ _ _ rfl rfl rfl

/-- C2 witness: a singleton query at a concrete message, with the retrieval
call carrying the raw question and a rephrase-call count of zero. -/
theorem query_empty_history_trace_witness :
    queryVectorStore trivialEnv [ChatWindowMessage.mk Role.human (str "why")] =
      some (WorkerAction.retrieveCall (str "why") ::
        WorkerAction.llmStreamCall
          (RInput.mk (str "why") [] (formatDocs (trivialEnv.retrieve (str "why")))) ::
        (relayChunks (trivialEnv.streamFor
            (RInput.mk (str "why") []
              (formatDocs (trivialEnv.retrieve (str "why"))))) ++
          [WorkerAction.emit (Event.complete okStr)])) ∧
    ∀ acts, queryVectorStore trivialEnv
        [ChatWindowMessage.mk Role.human (str "why")] = some acts →
      acts.countP isLlmCallB = 0 :=
  query_empty_history_trace trivialEnv (ChatWindowMessage.mk Role.human (str "why"))

/-- C3 witness: a three-message conversation whose trace opens with the
rephrase call and whose full trace contains exactly one rephrase call. -/
theorem query_nonempty_history_trace_witness :
    (([ChatWindowMessage.mk Role.human (str "hello"),
        ChatWindowMessage.mk Role.ai (str "hi"),
        ChatWindowMessage.mk Role.human (str "why")] :
          List ChatWindowMessage).dropLast ≠ []) ∧
    ∃ acts, queryVectorStore trivialEnv
        [ChatWindowMessage.mk Role.human (str "hello"),
          ChatWindowMessage.mk Role.ai (str "hi"),
          ChatWindowMessage.mk Role.human (str "why")] = some acts ∧
      acts.countP isLlmCallB = 1 := by
  refine ⟨by decide, ?_⟩
  have h := (query_nonempty_history_trace trivialEnv
    [ChatWindowMessage.mk Role.human (str "hello"),
      ChatWindowMessage.mk Role.ai (str "hi"),
      ChatWindowMessage.mk Role.human (str "why")]
    (ChatWindowMessage.mk Role.human (str "why")) rfl (by decide)).1
  exact ⟨_, h, by decide⟩

/-- C5: a successful ingest invocation posts the received log, then a log
event whose payload is the full split-chunk list, then inserts exactly those
chunks into the vector store, then posts a single complete event carrying
the literal OK. -/
theorem ingest_trace (env : HostEnv) (d : InboundData) (p : Str)
    (hpdf : d.pdf = some p) (hne : p ≠ []) :
    handleMessage env d =
      some [WorkerAction.emit (Event.log (LogPayload.received d)),
        WorkerAction.emit
          (Event.log (LogPayload.docsPayload (chunksOf (env.parse p)))),
        WorkerAction.addDocuments (chunksOf (env.parse p)),
        WorkerAction.emit (Event.complete okStr)] := by
  have htruthy : truthy d.pdf = true := by
    rw [hpdf]
    unfold truthy
    cases p with
    | nil => exact absurd rfl hne
    | cons c cs => rfl
  unfold handleMessage routeOf
  rw [htruthy, hpdf]
  rfl

/-- C5 witness: ingest of a concrete data-URL payload in the trivial
environment. -/
theorem ingest_trace_witness :
    handleMessage trivialEnv (InboundData.mk (some (str "data:x")) none) =
      some [WorkerAction.emit (Event.log (LogPayload.received
          (InboundData.mk (some (str "data:x")) none))),
        WorkerAction.emit (Event.log (LogPayload.docsPayload
          (chunksOf (trivialEnv.parse (str "data:x"))))),
        WorkerAction.addDocuments (chunksOf (trivialEnv.parse (str "data:x"))),
        WorkerAction.emit (Event.complete okStr)] :=
  ingest_trace trivialEnv (InboundData.mk (some (str "data:x")) none)
    (str "data:x") rfl (by decide)

theorem documentsOf_eq (p : ParsedPdf) :
    documentsOf p =
      (List.range' 1 p.pages.length).filterMap (fun i =>
        if ((p.pages.get? (i - 1)).getD []).length = 0 then none
        else some (mkPageDoc p i ((p.pages.get? (i - 1)).getD []))) := by
  unfold documentsOf
  have key : ∀ (l : List Nat) (acc : List Document),
      l.foldl (fun acc i =>
        let items := (p.pages.get? (i - 1)).getD []
        if items.length = 0 then acc else acc ++ [mkPageDoc p i items]) acc =
        acc ++ l.filterMap (fun i =>
          if ((p.pages.get? (i - 1)).getD []).length = 0 then none
          else some (mkPageDoc p i ((p.pages.get? (i - 1)).getD []))) := by
    intro l
    induction l with
    | nil => intro acc; simp
    | cons j t ih =>
      intro acc
      rw [List.foldl_cons, List.filterMap_cons]
      dsimp only
      by_cases hj : ((p.pages.get? (j - 1)).getD []).length = 0
      · rw [if_pos hj, if_pos hj, ih]
      · rw [if_neg hj, if_neg hj, ih]
        simp
  simpa using key (List.range' 1 p.pages.length) []

theorem pageFilter_aux (p : ParsedPdf) (i : Nat) :
    ∀ (n s : Nat),
      ((List.range' s n).filterMap (fun j =>
          if ((p.pages.get? (j - 1)).getD []).length = 0 then none
          else some (mkPageDoc p j ((p.pages.get? (j - 1)).getD [])))).filter
          (fun d => decide (d.metadata.loc.pageNumber = i)) =
        if s ≤ i ∧ i < s + n then
          (if ((p.pages.get? (i - 1)).getD []).length = 0 then []
            else [mkPageDoc p i ((p.pages.get? (i - 1)).getD [])])
        else [] := by
  intro n
  induction n with
  | zero =>
    intro s
    rw [if_neg (by omega)]
    simp [List.range']
  | succ n ih =>
    intro s
    rw [List.range'_succ, List.filterMap_cons]
    by_cases hs : ((p.pages.get? (s - 1)).getD []).length = 0
    · rw [if_pos hs, ih (s + 1)]
      by_cases hi : i = s
      · subst hi
        rw [if_neg (by omega), if_pos (by omega), if_pos hs]
      · by_cases hr : s ≤ i ∧ i < s + (n + 1)
        · rw [if_pos (by omega), if_pos hr]
        · rw [if_neg (by omega), if_neg hr]
    · rw [if_neg hs, List.filter_cons]
      have hpage : (mkPageDoc p s ((p.pages.get? (s - 1)).getD
          [])).metadata.loc.pageNumber = s := rfl
      by_cases hi : i = s
      · subst hi
        rw [hpage]
        simp only [decide_True, if_pos, ih (i + 1)]
        rw [if_neg (by omega), if_pos (by omega), if_neg hs]
      · rw [hpage]
        have : decide (s = i) = false := by
          simp [hi, Ne.symm hi]
        simp only [this, Bool.false_eq_true, if_false, ih (s + 1)]
        by_cases hr : s ≤ i ∧ i < s + (n + 1)
        · rw [if_pos (by omega), if_pos hr]
        · rw [if_neg (by omega), if_neg hr]

/-- C6: during ingest every page with no text items contributes no document,
and every retained page contributes exactly one pre-split document whose
content is the items of the page joined with newlines and whose metadata records
the pdf version, the optional document info and metadata payloads, the total
page count, and the 1-based number of the page. -/
theorem page_documents (p : ParsedPdf) (i : Nat)
    (h1 : 1 ≤ i) (h2 : i ≤ p.pages.length) :
    (documentsOf p).filter (fun d => decide (d.metadata.loc.pageNumber = i)) =
      if ((p.pages.get? (i - 1)).getD []).length = 0 then []
      else [Document.mk (joinSep ['\n'] ((p.pages.get? (i - 1)).getD []))
        (DocMetadata.mk
          (PdfGroup.mk pdfJsVersion (p.meta.map PdfMeta.info)
            (p.meta.map PdfMeta.metaObj) p.pages.length)
          (LocGroup.mk i))] := by
  rw [documentsOf_eq, pageFilter_aux p i p.pages.length 1, if_pos (by omega)]
  rfl

/-- C6 witness: a two-page PDF whose second page has no text items yields
exactly one document for page 1 and none for page 2. -/
theorem page_documents_witness :
    ((1 : Nat) ≤ 1 ∧
      1 ≤ (ParsedPdf.mk [[str "alpha", str "beta"], []] none).pages.length) ∧
    (documentsOf (ParsedPdf.mk [[str "alpha", str "beta"], []] none)).filter
        (fun d => decide (d.metadata.loc.pageNumber = 1)) =
      [Document.mk (str "alpha\nbeta")
        (DocMetadata.mk (PdfGroup.mk pdfJsVersion none none 2)
          (LocGroup.mk 1))] := by
  refine ⟨⟨le_refl 1, by decide⟩, ?_⟩
  rw [page_documents (ParsedPdf.mk [[str "alpha", str "beta"], []] none) 1
    (le_refl 1) (by decide)]
  decide

theorem chunks_content_eq (q : ParsedPdf) :
    (chunksOf q).map Document.pageContent =
      ((documentsOf q).map Document.pageContent).flatMap
        (fun c => splitText chunkSizeConfig chunkOverlapConfig
          defaultSeparators c) := by
  unfold chunksOf splitDocuments
  rw [List.map_flatMap, List.flatMap_map]
  apply List.flatMap_congr
  intro d _
  have : (Document.pageContent ∘ fun t => Document.mk t d.metadata) = id := by
    funext t
    rfl
  rw [List.map_map, this, List.map_id]

/-- C8: a PDF-metadata extraction failure is absorbed: with the metadata
absent the per-page documents keep exactly the same contents, their info and
metadata fields are recorded as absent, the split chunks keep the same
contents, and the ingest flow (chunk log followed by insertion) proceeds
unchanged. -/
theorem metadata_failure_tolerated (p : ParsedPdf) :
    (documentsOf (ParsedPdf.mk p.pages none)).map Document.pageContent =
        (documentsOf p).map Document.pageContent ∧
    (∀ d ∈ documentsOf (ParsedPdf.mk p.pages none),
        d.metadata.pdf.info = none ∧ d.metadata.pdf.metaObj = none) ∧
    (chunksOf (ParsedPdf.mk p.pages none)).map Document.pageContent =
        (chunksOf p).map Document.pageContent ∧
    ∀ env url, embedPDF env url =
        [WorkerAction.emit (Event.log (LogPayload.docsPayload
            (chunksOf (env.parse url)))),
          WorkerAction.addDocuments (chunksOf (env.parse url))] := by
  have h1 : (documentsOf (ParsedPdf.mk p.pages none)).map Document.pageContent =
      (documentsOf p).map Document.pageContent := by
    rw [documentsOf_eq, documentsOf_eq]
    rw [List.map_filterMap, List.map_filterMap]
    apply List.filterMap_congr
    intro j _
    by_cases hj : ((p.pages.get? (j - 1)).getD []).length = 0
    · simp only [hj]
      rfl
    · simp only [hj, if_neg, if_false]
      rfl
  refine ⟨h1, ?_, ?_, fun env url => rfl⟩
  · intro d hd
    rw [documentsOf_eq] at hd
    rcases List.mem_filterMap.mp hd with ⟨j, _, hj⟩
    by_cases hc : (((ParsedPdf.mk p.pages none).pages.get? (j - 1)).getD
        []).length = 0
    · rw [if_pos hc] at hj
      exact absurd hj (by simp)
    · rw [if_neg hc] at hj
      rw [← Option.some.inj hj]
      exact ⟨rfl, rfl⟩
  · rw [chunks_content_eq, chunks_content_eq, h1]

/-- C8 witness: a one-page PDF with and without its metadata payload yields
the same page contents, and absent metadata is recorded as absent. -/
theorem metadata_failure_tolerated_witness :
    (documentsOf (ParsedPdf.mk [[str "pg"]] none)).map Document.pageContent =
        (documentsOf (ParsedPdf.mk [[str "pg"]]
          (some (PdfMeta.mk (str "I") (str "X"))))).map Document.pageContent ∧
    ∀ d ∈ documentsOf (ParsedPdf.mk [[str "pg"]] none),
      d.metadata.pdf.info = none ∧ d.metadata.pdf.metaObj = none :=
  ⟨(metadata_failure_tolerated (ParsedPdf.mk [[str "pg"]]
      (some (PdfMeta.mk (str "I") (str "X"))))).1,
    (metadata_failure_tolerated (ParsedPdf.mk [[str "pg"]]
      (some (PdfMeta.mk (str "I") (str "X"))))).2.1⟩

/-- C10 witness: an absent pdf field routes to the query flow even with a
messages field present, and a non-empty pdf field routes to ingest. -/
theorem dispatch_on_pdf_truthiness_witness :
    routeOf (InboundData.mk none (some [])) = Route.query ∧
    routeOf (InboundData.mk (some (str "d")) none) = Route.ingest :=
  ⟨((dispatch_on_pdf_truthiness (InboundData.mk none (some []))).1).mpr
      (Or.inl rfl),
    ((dispatch_on_pdf_truthiness
        (InboundData.mk (some (str "d")) none)).2.1).mpr
      ⟨str "d", rfl, by decide⟩⟩
